import Mathlib

/-!
Rotating point-cloud transform of sphera.cpp.

A shallow embedding of `src/sphera.cpp`.  Single-precision values are modelled
by the elements of a linearly ordered field `α` (exact arithmetic); the library
functions `cos`, `sin` and the constant `M_PI` are parameters `cosf`, `sinf`,
`pi`, instantiated with `Real.cos`, `Real.sin`, `Real.pi` where a statement
needs trigonometric facts.  Decimal literals of the source (`0.01f`, `1.2f`,
`0.02f`, `0.5f`) are the corresponding exact fractions.

The angle update of `onFrame` is given a second time in IEEE 754 arithmetic
(`advanceAngleFloat`: binary32 and binary64 values as rationals, every operation
rounded to nearest, ties to even), for the statement whose truth depends on
which values a `float` can take.
-/

namespace Sphera

variable {α : Type} [LinearOrderedField α]

/-- A `cl_float4` record; `s[0]`, `s[1]`, `s[2]`, `s[3]` are `x`, `y`, `z`, `w`. -/
structure Float4 (α : Type) where
  x : α
  y : α
  z : α
  w : α

/-- The OpenCL kernel `rotate_project` (sphera.cpp 16-58) for one work item:
`p` is `in_pos[i]`, the result is the pair written to `out_xy[i]`. -/
def rotate_project (cosf sinf : α → α) (p : Float4 α) (angle focal : α) : α × α :=
  let x := p.x
  let y := p.y
  let z := p.z
  let c := cosf angle
  let s := sinf angle
  let xr := c * x + s * z
  let yr := y
  let zr := -s * x + c * z
  let camZ : α := 3
  let zcam := zr + camZ
  if zcam ≤ 1 / 100 then (2, 2)
  else
    let px := (xr * focal) / zcam
    let py := (yr * focal) / zcam
    (px, py)

/-- The body of the CPU fallback loop of `onFrame` (sphera.cpp 161-176) for one
index: `p` is `points[i]`, the result is the pair stored in `hostXY[i]`.  `focal`
and `camZ` are the locals the enclosing block binds just before the loop. -/
def fallbackPoint (cosf sinf : α → α) (focal camZ angle : α) (p : Float4 α) : α × α :=
  let x := p.x
  let y := p.y
  let z := p.z
  let c := cosf angle
  let s := sinf angle
  let xr := c * x + s * z
  let yr := y
  let zr := -s * x + c * z
  let zcam := zr + camZ
  if zcam ≤ 1 / 100 then (2, 2)
  else ((xr * focal) / zcam, (yr * focal) / zcam)

/-- Errors `makeSpherePoints` can raise: `std::length_error` from `vector::reserve`. -/
inductive GenError where
  | lengthError
deriving DecidableEq

/-- The call `pts.reserve(n)` with an `int` argument: the argument converts to the
unsigned `size_type`, so a negative `n` becomes a request above `max_size()` and
`reserve` throws `std::length_error`; otherwise it only changes the capacity. -/
def reserveRejects (n : Int) : Bool := decide (n < 0)

/-- One point of the grid (sphera.cpp 67-73), latitude index `i`, longitude index `j`. -/
def spherePoint (pi : α) (cosf sinf : α → α) (latSteps lonSteps : Int) (i j : Nat) : Float4 α :=
  let theta := pi * (((i : α) + 1 / 2) / (latSteps : α))
  let phi := 2 * pi * ((j : α) / (lonSteps : α))
  let x := sinf theta * cosf phi
  let y := cosf theta
  let z := sinf theta * sinf phi
  ⟨x, y, z, 1⟩

/-- The inner `for (int j = 0; j < lonSteps; ++j)` loop: one `push_back` per `j`. -/
def sphereRow (pi : α) (cosf sinf : α → α) (latSteps lonSteps : Int) (pts : List (Float4 α))
    (i : Nat) : List (Float4 α) :=
  (List.range lonSteps.toNat).foldl
    (fun pts j => pts ++ [spherePoint pi cosf sinf latSteps lonSteps i j]) pts

/-- The function `makeSpherePoints` (sphera.cpp 62-77).  `int` step counts are
integers (the product in `reserve` is taken without overflow); a loop
`for (int i = 0; i < n; ++i)` runs over `0 .. n-1` and not at all when `n ≤ 0`. -/
def makeSpherePoints (pi : α) (cosf sinf : α → α) (latSteps lonSteps : Int) :
    Except GenError (List (Float4 α)) :=
  if reserveRejects (latSteps * lonSteps) then Except.error GenError.lengthError
  else
    Except.ok
      ((List.range latSteps.toNat).foldl (sphereRow pi cosf sinf latSteps lonSteps) [])

/-- The OpenCL handles of the widget; `true` stands for a non-null handle, that is,
a resource that has been acquired and not released. -/
structure Handles where
  platform : Bool
  device : Bool
  context : Bool
  queue : Bool
  program : Bool
  kernel : Bool
  inBuffer : Bool
  outBuffer : Bool
deriving DecidableEq

/-- All handles null, the member initialisers of the class (sphera.cpp 185-192). -/
def Handles.null : Handles :=
  ⟨false, false, false, false, false, false, false, false⟩

/-- The outcome of every OpenCL call made by `initOpenCL`; `true` is `CL_SUCCESS`.
A creation call that fails returns a null handle. -/
structure InitCalls where
  countPlatforms : Bool
  numPlatforms : Nat
  getPlatforms : Bool
  gpuDevice : Bool
  cpuDevice : Bool
  createContext : Bool
  createQueue : Bool
  createProgram : Bool
  buildProgram : Bool
  createKernel : Bool
  createInBuffer : Bool
  createOutBuffer : Bool
deriving DecidableEq

/-- Every OpenCL call of `initOpenCL` succeeds, one platform is found. -/
def InitCalls.allSucceed : InitCalls :=
  ⟨true, 1, true, true, true, true, true, true, true, true, true, true⟩

/-- The method `initOpenCL` (sphera.cpp 204-294): the returned flag and the handles
on return. -/
def initOpenCL (c : InitCalls) (h : Handles) : Bool × Handles :=
  if !c.countPlatforms || c.numPlatforms == 0 then (false, h)
  else if !c.getPlatforms then (false, h)
  else
    let h := { h with platform := true }
    if !c.gpuDevice && !c.cpuDevice then (false, h)
    else
      let h := { h with device := true }
      let h := { h with context := c.createContext }
      if !c.createContext then (false, h)
      else
        let h := { h with queue := c.createQueue }
        if !c.createQueue then (false, { h with context := false })
        else
          let h := { h with program := c.createProgram }
          if !c.createProgram then (false, h)
          else if !c.buildProgram then (false, { h with program := false })
          else
            let h := { h with kernel := c.createKernel }
            if !c.createKernel then (false, h)
            else
              let h := { h with inBuffer := c.createInBuffer }
              if !c.createInBuffer then (false, h)
              else
                let h := { h with outBuffer := c.createOutBuffer }
                if !c.createOutBuffer then (false, h)
                else (true, h)

/-- The data members of `OpenCLSphereWidget` the transform uses (sphera.cpp 184-201). -/
structure Widget (α : Type) where
  cl : Handles
  useCPUFallback : Bool
  points : List (Float4 α)
  hostXY : List (α × α)
  latSteps : Int
  lonSteps : Int
  nPoints : Nat
  angle : α

/-- The outcome of the OpenCL calls of one `runOpenCL`; `true` is `CL_SUCCESS`.
`leftover i` is what `hostXY[i]` holds after a read-back that reported failure. -/
structure RunCalls (α : Type) where
  setArgs : Bool
  enqueue : Bool
  read : Bool
  leftover : Nat → α × α

/-- The method `runOpenCL` (sphera.cpp 296-343): the returned flag and the widget
afterwards.  The input buffer holds the `nPoints` records uploaded from `points`;
a successful read-back copies `nPoints` kernel results to the front of `hostXY`. -/
def runOpenCL (cosf sinf : α → α) (r : RunCalls α) (w : Widget α) : Bool × Widget α :=
  if !w.cl.kernel || !w.cl.queue then (false, w)
  else
    let focal : α := 12 / 10
    if !r.setArgs then (false, w)
    else if !r.enqueue then (false, w)
    else if !r.read then
      (false, { w with hostXY := (List.range w.hostXY.length).map r.leftover })
    else
      (true, { w with hostXY :=
        (w.points.take w.nPoints).map (fun p => rotate_project cosf sinf p w.angle focal)
          ++ w.hostXY.drop w.nPoints })

/-- The angle update of `onFrame` (sphera.cpp 153-154). -/
def advanceAngle (pi : α) (angle : α) : α :=
  let angle := angle + 2 / 100
  if angle > 2 * pi then angle - 2 * pi else angle

/-- One iteration of the CPU fallback loop: reads `points[i]`, writes `hostXY[i]`;
`none` is an access outside either vector. -/
def fallbackStep (cosf sinf : α → α) (focal camZ angle : α) (points : List (Float4 α))
    (hostXY : List (α × α)) (i : Nat) : Option (List (α × α)) :=
  match points[i]? with
  | none => none
  | some p =>
    if i < hostXY.length then some (hostXY.set i (fallbackPoint cosf sinf focal camZ angle p))
    else none

/-- The CPU fallback block of `onFrame` (sphera.cpp 157-177). -/
def cpuFallback (cosf sinf : α → α) (w : Widget α) : Option (Widget α) :=
  let focal : α := 12 / 10
  let camZ : α := 3
  ((List.range w.nPoints).foldlM (fallbackStep cosf sinf focal camZ w.angle w.points)
    w.hostXY).map fun buf => { w with hostXY := buf }

/-- The slot `onFrame` (sphera.cpp 152-181), up to the repaint request. -/
def onFrame (pi : α) (cosf sinf : α → α) (r : RunCalls α) (w : Widget α) : Option (Widget α) :=
  let w := { w with angle := advanceAngle pi w.angle }
  if w.useCPUFallback then cpuFallback cosf sinf w
  else
    let res := runOpenCL cosf sinf r w
    if !res.1 then cpuFallback cosf sinf res.2 else some res.2

/-- The constructor (sphera.cpp 82-106), up to the timer start. -/
def construct (pi : α) (cosf sinf : α → α) (c : InitCalls) : Except GenError (Widget α) :=
  let latSteps : Int := 120
  let lonSteps : Int := 240
  match makeSpherePoints pi cosf sinf latSteps lonSteps with
  | Except.error e => Except.error e
  | Except.ok points =>
    let nPoints := points.length
    let res := initOpenCL c Handles.null
    Except.ok
      { cl := res.2
        useCPUFallback := !res.1
        points := points
        hostXY := List.replicate nPoints (0, 0)
        latSteps := latSteps
        lonSteps := lonSteps
        nPoints := nPoints
        angle := 0 }

/-- The off-screen test of `paintEvent` (sphera.cpp 134): `true` when the point is
skipped. -/
def paintSkips (xy : α × α) : Bool :=
  let ndc_x := xy.1
  let ndc_y := xy.2
  decide (ndc_x > 15 / 10) || decide (ndc_x < -(15 / 10)) ||
    decide (ndc_y > 15 / 10) || decide (ndc_y < -(15 / 10))

/-- The angle stored after `n` ticks, from the constructor's `angle(0.0f)`. -/
def angleAfter (pi : α) : Nat → α
  | 0 => 0
  | n + 1 => advanceAngle pi (angleAfter pi n)

/-- Rounding of a rational to the nearest integer, a tie going to the even one. -/
def roundHalfEven (q : ℚ) : Int :=
  let f := ⌊q⌋
  let r := q - (f : ℚ)
  if r < 1 / 2 then f
  else if 1 / 2 < r then f + 1
  else if f % 2 = 0 then f else f + 1

/-- IEEE 754 round-to-nearest-even into the binary format with `p` significand bits
and least normal exponent `emin` (gradual underflow below it).  The value is
`n * 2 ^ (e - p + 1)` with `e` the binary exponent of `x`.  Overflow to infinity is
not represented: the format's largest exponent is not a parameter, and every value
rounded in this file is below 8 in magnitude. -/
def roundBinary (p : Nat) (emin : Int) (x : ℚ) : ℚ :=
  if x = 0 then 0
  else
    let e := max (Int.log 2 |x|) emin
    let ulp : ℚ := 2 ^ (e - (p : Int) + 1)
    (roundHalfEven (x / ulp) : ℚ) * ulp

/-- Rounding to `float` (binary32: 24 significand bits, least normal exponent -126). -/
def roundF32 (x : ℚ) : ℚ := roundBinary 24 (-126) x

/-- Rounding to `double` (binary64: 53 significand bits, least normal exponent -1022). -/
def roundF64 (x : ℚ) : ℚ := roundBinary 53 (-1022) x

/-- The macro `M_PI` of `<cmath>`: the `double` literal `3.14159265358979323846`. -/
def M_PI : ℚ := roundF64 (314159265358979323846 / 100000000000000000000)

/-- The angle update of `onFrame` (sphera.cpp 153-154) in IEEE 754 arithmetic, `angle`
a `float`.  `angle += 0.02f` is a `float` addition of the `float` literal `0.02f`;
`2.0f * M_PI` is a `double` product, so the comparison and the subtraction are
carried out in `double` and the difference is converted back to `float`. -/
def advanceAngleFloat (angle : ℚ) : ℚ :=
  let angle := roundF32 (angle + roundF32 (2 / 100))
  if angle > roundF64 (2 * M_PI) then roundF32 (roundF64 (angle - roundF64 (2 * M_PI)))
  else angle

/-- A run of the timer: one `onFrame` per element of `rs`, the OpenCL outcomes of
that tick. -/
def runTicks (pi : α) (cosf sinf : α → α) : List (RunCalls α) → Widget α → Option (Widget α)
  | [], w => some w
  | r :: rs, w =>
    match onFrame pi cosf sinf r w with
    | none => none
    | some w1 => runTicks pi cosf sinf rs w1

/-- The transform as section 4.3 of the specification words it: rotate about the
vertical axis, add the camera offset 3.0, emit the sentinel when `zcam ≤ 0.01`,
otherwise divide by `zcam`. -/
def specTransform (cosf sinf : α → α) (angle focal : α) (x y z : α) : α × α :=
  let xr := cosf angle * x + sinf angle * z
  let yr := y
  let zr := -sinf angle * x + cosf angle * z
  let zcam := zr + 3
  if zcam ≤ 1 / 100 then (2, 2) else (xr * focal / zcam, yr * focal / zcam)

/-- The sizes the constructor establishes: `nPoints = points.size()` and
`hostXY.resize(nPoints)`. -/
def Widget.sized (w : Widget α) : Prop :=
  w.points.length = w.nPoints ∧ w.hostXY.length = w.nPoints

instance Widget.decidableSized (w : Widget α) : Decidable w.sized :=
  inferInstanceAs (Decidable (w.points.length = w.nPoints ∧ w.hostXY.length = w.nPoints))

/-! The point cloud. -/

/-- The grid built by the first `n` iterations of the outer loop. -/
def cloudRows (pi : α) (cosf sinf : α → α) (latSteps lonSteps : Int) (n : Nat) :
    List (Float4 α) :=
  (List.range n).foldl (sphereRow pi cosf sinf latSteps lonSteps) []

theorem sphereRow_eq (pi : α) (cosf sinf : α → α) (latSteps lonSteps : Int)
    (pts : List (Float4 α)) (i : Nat) :
    sphereRow pi cosf sinf latSteps lonSteps pts i =
      pts ++ (List.range lonSteps.toNat).map (spherePoint pi cosf sinf latSteps lonSteps i) := by
  unfold sphereRow
  generalize lonSteps.toNat = m
  induction m with
  | zero => simp
  | succ m ih => simp [List.range_succ, List.foldl_append, ih]

theorem cloudRows_succ (pi : α) (cosf sinf : α → α) (latSteps lonSteps : Int) (n : Nat) :
    cloudRows pi cosf sinf latSteps lonSteps (n + 1) =
      cloudRows pi cosf sinf latSteps lonSteps n ++
        (List.range lonSteps.toNat).map (spherePoint pi cosf sinf latSteps lonSteps n) := by
  simp [cloudRows, List.range_succ, List.foldl_append, sphereRow_eq]

theorem cloudRows_length (pi : α) (cosf sinf : α → α) (latSteps lonSteps : Int) (n : Nat) :
    (cloudRows pi cosf sinf latSteps lonSteps n).length = n * lonSteps.toNat := by
  induction n with
  | zero => simp [cloudRows]
  | succ n ih => rw [cloudRows_succ]; simp [ih]; ring

theorem cloudRows_getElem? (pi : α) (cosf sinf : α → α) (latSteps lonSteps : Int) (n : Nat)
    (i j : Nat) (hi : i < n) (hj : j < lonSteps.toNat) :
    (cloudRows pi cosf sinf latSteps lonSteps n)[i * lonSteps.toNat + j]? =
      some (spherePoint pi cosf sinf latSteps lonSteps i j) := by
  induction n with
  | zero => omega
  | succ n ih =>
    rw [cloudRows_succ]
    by_cases h : i < n
    · have hlt : i * lonSteps.toNat + j <
          (cloudRows pi cosf sinf latSteps lonSteps n).length := by
        rw [cloudRows_length]
        calc i * lonSteps.toNat + j < i * lonSteps.toNat + lonSteps.toNat := by omega
          _ = (i + 1) * lonSteps.toNat := by ring
          _ ≤ n * lonSteps.toNat := Nat.mul_le_mul_right _ h
      rw [List.getElem?_append_left hlt]
      exact ih h
    · have hin : i = n := by omega
      subst hin
      have hge : (cloudRows pi cosf sinf latSteps lonSteps i).length ≤
          i * lonSteps.toNat + j := by
        rw [cloudRows_length]; omega
      rw [List.getElem?_append_right hge, cloudRows_length]
      simp [hj]

theorem cloudRows_mem (pi : α) (cosf sinf : α → α) (latSteps lonSteps : Int) (n : Nat)
    (p : Float4 α) (hp : p ∈ cloudRows pi cosf sinf latSteps lonSteps n) :
    ∃ i j : Nat, p = spherePoint pi cosf sinf latSteps lonSteps i j := by
  induction n with
  | zero => simp [cloudRows] at hp
  | succ n ih =>
    rw [cloudRows_succ, List.mem_append] at hp
    rcases hp with hp | hp
    · exact ih hp
    · rw [List.mem_map] at hp
      obtain ⟨j, _, hj⟩ := hp
      exact ⟨n, j, hj.symm⟩

theorem makeSpherePoints_ok (pi : α) (cosf sinf : α → α) (latSteps lonSteps : Int)
    (h : 0 ≤ latSteps * lonSteps) :
    makeSpherePoints pi cosf sinf latSteps lonSteps =
      Except.ok (cloudRows pi cosf sinf latSteps lonSteps latSteps.toNat) := by
  have hn : ¬ latSteps * lonSteps < 0 := not_lt.mpr h
  simp [makeSpherePoints, reserveRejects, cloudRows, hn]

theorem spherePoint_unit (latSteps lonSteps : Int) (i j : Nat) :
    (spherePoint Real.pi Real.cos Real.sin latSteps lonSteps i j).x ^ 2 +
      (spherePoint Real.pi Real.cos Real.sin latSteps lonSteps i j).y ^ 2 +
      (spherePoint Real.pi Real.cos Real.sin latSteps lonSteps i j).z ^ 2 = 1 := by
  simp only [spherePoint]
  set θ := Real.pi * (((i : ℝ) + 1 / 2) / (latSteps : ℝ))
  set φ := 2 * Real.pi * ((j : ℝ) / (lonSteps : ℝ))
  have h1 := Real.sin_sq_add_cos_sq θ
  have h2 := Real.sin_sq_add_cos_sq φ
  calc (Real.sin θ * Real.cos φ) ^ 2 + Real.cos θ ^ 2 + (Real.sin θ * Real.sin φ) ^ 2
      = Real.sin θ ^ 2 * (Real.sin φ ^ 2 + Real.cos φ ^ 2) + Real.cos θ ^ 2 := by ring
    _ = 1 := by rw [h2, mul_one, h1]

/-- C3: for step counts `latSteps ≥ 1` and `lonSteps ≥ 1`, `makeSpherePoints` returns
exactly `latSteps * lonSteps` points in row-major order: the element at index
`i * lonSteps + j` is `(sin θ cos φ, cos θ, sin θ sin φ, 1)` with
`θ = pi (i + 1/2) / latSteps` and `φ = 2 pi j / lonSteps`. -/
theorem makeSpherePoints_rowMajor (pi : α) (cosf sinf : α → α) (latSteps lonSteps : Int)
    (hlat : 1 ≤ latSteps) (hlon : 1 ≤ lonSteps) :
    ∃ pts : List (Float4 α),
      makeSpherePoints pi cosf sinf latSteps lonSteps = Except.ok pts ∧
      (pts.length : Int) = latSteps * lonSteps ∧
      ∀ i j : Nat, (i : Int) < latSteps → (j : Int) < lonSteps →
        pts[i * lonSteps.toNat + j]? =
          some ⟨sinf (pi * ((i : α) + 1 / 2) / (latSteps : α)) *
                  cosf (2 * pi * (j : α) / (lonSteps : α)),
                cosf (pi * ((i : α) + 1 / 2) / (latSteps : α)),
                sinf (pi * ((i : α) + 1 / 2) / (latSteps : α)) *
                  sinf (2 * pi * (j : α) / (lonSteps : α)),
                1⟩ := by
  refine ⟨_, makeSpherePoints_ok pi cosf sinf latSteps lonSteps
    (mul_nonneg (by omega) (by omega)), ?_, ?_⟩
  · rw [cloudRows_length]
    push_cast
    rw [Int.toNat_of_nonneg (by omega), Int.toNat_of_nonneg (by omega)]
  · intro i j hi hj
    rw [cloudRows_getElem? pi cosf sinf latSteps lonSteps latSteps.toNat i j
      (by omega) (by omega)]
    simp only [spherePoint, mul_div_assoc]

/-- Witness for C3: the 2 × 3 grid. -/
theorem makeSpherePoints_rowMajor_witness :
    ∃ pts : List (Float4 ℝ),
      makeSpherePoints Real.pi Real.cos Real.sin 2 3 = Except.ok pts ∧
      (pts.length : Int) = 2 * 3 ∧
      ∀ i j : Nat, (i : Int) < 2 → (j : Int) < 3 →
        pts[i * (3 : Int).toNat + j]? =
          some ⟨Real.sin (Real.pi * ((i : ℝ) + 1 / 2) / ((2 : Int) : ℝ)) *
                  Real.cos (2 * Real.pi * (j : ℝ) / ((3 : Int) : ℝ)),
                Real.cos (Real.pi * ((i : ℝ) + 1 / 2) / ((2 : Int) : ℝ)),
                Real.sin (Real.pi * ((i : ℝ) + 1 / 2) / ((2 : Int) : ℝ)) *
                  Real.sin (2 * Real.pi * (j : ℝ) / ((3 : Int) : ℝ)),
                1⟩ :=
  makeSpherePoints_rowMajor Real.pi Real.cos Real.sin 2 3 (by decide) (by decide)

/-- C4: for `latSteps ≥ 1` and `lonSteps ≥ 1`, `makeSpherePoints` returns a non-empty
sequence each of whose points satisfies `x² + y² + z² = 1` (real arithmetic) and
`w = 1`. -/
theorem makeSpherePoints_unit_sphere (latSteps lonSteps : Int)
    (hlat : 1 ≤ latSteps) (hlon : 1 ≤ lonSteps) :
    ∃ pts : List (Float4 ℝ),
      makeSpherePoints Real.pi Real.cos Real.sin latSteps lonSteps = Except.ok pts ∧
      pts ≠ [] ∧
      ∀ p ∈ pts, p.x ^ 2 + p.y ^ 2 + p.z ^ 2 = 1 ∧ p.w = 1 := by
  refine ⟨_, makeSpherePoints_ok Real.pi Real.cos Real.sin latSteps lonSteps
    (mul_nonneg (by omega) (by omega)), ?_, ?_⟩
  · intro hnil
    have hlen := cloudRows_length Real.pi Real.cos Real.sin latSteps lonSteps latSteps.toNat
    rw [hnil] at hlen
    have h1 : 1 ≤ latSteps.toNat := by omega
    have h2 : 1 ≤ lonSteps.toNat := by omega
    have h3 : 1 ≤ latSteps.toNat * lonSteps.toNat := Nat.mul_le_mul h1 h2
    simp at hlen
    omega
  · intro p hp
    obtain ⟨i, j, rfl⟩ := cloudRows_mem _ _ _ _ _ _ p hp
    exact ⟨spherePoint_unit latSteps lonSteps i j, rfl⟩

/-- Witness for C4: the constructor's 120 × 240 grid. -/
theorem makeSpherePoints_unit_sphere_witness :
    ∃ pts : List (Float4 ℝ),
      makeSpherePoints Real.pi Real.cos Real.sin 120 240 = Except.ok pts ∧
      pts ≠ [] ∧
      ∀ p ∈ pts, p.x ^ 2 + p.y ^ 2 + p.z ^ 2 = 1 ∧ p.w = 1 :=
  makeSpherePoints_unit_sphere 120 240 (by decide) (by decide)

/-- C5, refuted as stated: with `latSteps = 0` the generator reports no error and
returns the empty sequence. -/
theorem makeSpherePoints_zero_no_error :
    makeSpherePoints Real.pi Real.cos Real.sin 0 5 = Except.ok [] ∧
      ∀ e : GenError, makeSpherePoints Real.pi Real.cos Real.sin 0 5 ≠ Except.error e := by
  have h : makeSpherePoints Real.pi Real.cos Real.sin 0 5 = Except.ok [] := by
    simp [makeSpherePoints, reserveRejects]
  refine ⟨h, ?_⟩
  intro e he
  rw [h] at he
  cases he

/-- C5, amended: with a non-positive step count `makeSpherePoints` has no argument
check; it returns the empty sequence without error when `latSteps * lonSteps ≥ 0`,
and otherwise fails only through the `length_error` of `reserve`. -/
theorem makeSpherePoints_nonpositive (pi : α) (cosf sinf : α → α) (latSteps lonSteps : Int)
    (h : latSteps ≤ 0 ∨ lonSteps ≤ 0) :
    makeSpherePoints pi cosf sinf latSteps lonSteps =
      if latSteps * lonSteps < 0 then Except.error GenError.lengthError else Except.ok [] := by
  by_cases hneg : latSteps * lonSteps < 0
  · simp [makeSpherePoints, reserveRejects, hneg]
  · rw [makeSpherePoints_ok pi cosf sinf latSteps lonSteps (not_lt.mp hneg), if_neg hneg]
    congr 1
    have hlen := cloudRows_length pi cosf sinf latSteps lonSteps latSteps.toNat
    have hz : latSteps.toNat * lonSteps.toNat = 0 := by
      rcases h with h | h
      · rw [Int.toNat_of_nonpos h, Nat.zero_mul]
      · rw [Int.toNat_of_nonpos h, Nat.mul_zero]
    rw [hz] at hlen
    exact List.length_eq_zero.mp hlen

/-- Witness for C5 amended: a negative latitude count with a positive longitude count. -/
theorem makeSpherePoints_nonpositive_witness :
    makeSpherePoints Real.pi Real.cos Real.sin (-1) 5 =
      if (-1 : Int) * 5 < 0 then Except.error GenError.lengthError else Except.ok [] :=
  makeSpherePoints_nonpositive Real.pi Real.cos Real.sin (-1) 5 (Or.inl (by decide))

/-! The transform: kernel, fallback, specification. -/

theorem fallbackStep_at (cosf sinf : α → α) (focal camZ angle : α)
    (points : List (Float4 α)) (hostXY : List (α × α)) (k : Nat)
    (hp : k < points.length) (hh : k < hostXY.length) :
    fallbackStep cosf sinf focal camZ angle points
        ((points.take k).map (fallbackPoint cosf sinf focal camZ angle) ++ hostXY.drop k) k =
      some ((points.take (k + 1)).map (fallbackPoint cosf sinf focal camZ angle) ++
        hostXY.drop (k + 1)) := by
  have hlen : ((points.take k).map (fallbackPoint cosf sinf focal camZ angle)).length = k := by
    simp; omega
  have hk : k < ((points.take k).map (fallbackPoint cosf sinf focal camZ angle) ++
      hostXY.drop k).length := by
    simp; omega
  unfold fallbackStep
  rw [List.getElem?_eq_getElem hp]
  simp only [hk, if_true]
  congr 1
  rw [List.set_append, if_neg (by omega), hlen, Nat.sub_self,
    List.drop_eq_getElem_cons hh, List.set_cons_zero, List.take_succ,
    List.getElem?_eq_getElem hp]
  simp only [Option.toList_some, List.map_append, List.map_cons, List.map_nil,
    List.append_assoc, List.singleton_append]

theorem fallbackLoop_upto (cosf sinf : α → α) (focal camZ angle : α)
    (points : List (Float4 α)) (hostXY : List (α × α)) (k : Nat)
    (hp : k ≤ points.length) (hh : k ≤ hostXY.length) :
    (List.range k).foldlM (fallbackStep cosf sinf focal camZ angle points) hostXY =
      some ((points.take k).map (fallbackPoint cosf sinf focal camZ angle) ++
        hostXY.drop k) := by
  induction k with
  | zero => simp
  | succ k ih =>
    rw [List.range_succ, List.foldlM_append, ih (by omega) (by omega)]
    have hstep := fallbackStep_at cosf sinf focal camZ angle points hostXY k
      (by omega) (by omega)
    simpa using hstep

theorem cpuFallback_eq (cosf sinf : α → α) (w : Widget α) (hs : w.sized) :
    cpuFallback cosf sinf w =
      some { w with hostXY := w.points.map (fallbackPoint cosf sinf (12 / 10) 3 w.angle) } := by
  obtain ⟨h1, h2⟩ := hs
  unfold cpuFallback
  simp only []
  rw [fallbackLoop_upto cosf sinf (12 / 10) 3 w.angle w.points w.hostXY w.nPoints
    (by omega) (by omega)]
  rw [← h1, List.take_length, h1, ← h2, List.drop_length]
  simp

theorem runOpenCL_frame (cosf sinf : α → α) (r : RunCalls α) (w : Widget α) (hs : w.sized) :
    (runOpenCL cosf sinf r w).2.sized ∧
      (runOpenCL cosf sinf r w).2.points = w.points ∧
      (runOpenCL cosf sinf r w).2.nPoints = w.nPoints ∧
      (runOpenCL cosf sinf r w).2.angle = w.angle := by
  obtain ⟨h1, h2⟩ := hs
  unfold runOpenCL
  split_ifs <;> simp [Widget.sized, h1, h2]

theorem runOpenCL_success (cosf sinf : α → α) (r : RunCalls α) (w : Widget α) (hs : w.sized)
    (hok : (runOpenCL cosf sinf r w).1 = true) :
    (runOpenCL cosf sinf r w).2 =
      { w with hostXY :=
          w.points.map (fun p => rotate_project cosf sinf p w.angle (12 / 10)) } := by
  obtain ⟨h1, h2⟩ := hs
  have e1 : List.take w.nPoints w.points = w.points := by rw [← h1, List.take_length]
  have e2 : List.drop w.nPoints w.hostXY = [] := by rw [← h2, List.drop_length]
  unfold runOpenCL at hok ⊢
  split_ifs at hok ⊢
  simp only [e1, e2, List.append_nil]

theorem construct_sized (pi : α) (cosf sinf : α → α) (c : InitCalls) :
    ∃ w : Widget α, construct pi cosf sinf c = Except.ok w ∧ w.sized ∧ w.angle = 0 ∧
      w.useCPUFallback = !(initOpenCL c Handles.null).1 := by
  have hgen := makeSpherePoints_ok pi cosf sinf 120 240 (by norm_num)
  generalize cloudRows pi cosf sinf 120 240 (120 : Int).toNat = pts at hgen
  unfold construct
  simp only [hgen]
  exact ⟨_, rfl, ⟨rfl, List.length_replicate _ _⟩, rfl, rfl⟩

/-- Every tick completes on a widget of the constructor's sizes, keeps the sizes
and stores the advanced angle. -/
theorem onFrame_total (pi : α) (cosf sinf : α → α) (r : RunCalls α) (w : Widget α)
    (hs : w.sized) :
    ∃ w' : Widget α, onFrame pi cosf sinf r w = some w' ∧ w'.sized ∧
      w'.angle = advanceAngle pi w.angle := by
  have hs1 : ({ w with angle := advanceAngle pi w.angle } : Widget α).sized := hs
  have key : ∀ v : Widget α, v.sized → v.angle = advanceAngle pi w.angle →
      ∃ w' : Widget α, cpuFallback cosf sinf v = some w' ∧ w'.sized ∧
        w'.angle = advanceAngle pi w.angle := by
    intro v hv ha
    refine ⟨_, cpuFallback_eq cosf sinf v hv, ⟨?_, ?_⟩, ha⟩
    · exact hv.1
    · simp only [List.length_map]
      exact hv.1
  unfold onFrame
  dsimp only
  generalize hw1 : ({ w with angle := advanceAngle pi w.angle } : Widget α) = w1 at hs1
  have ha1 : w1.angle = advanceAngle pi w.angle := by rw [← hw1]
  obtain ⟨f1, _, _, f4⟩ := runOpenCL_frame cosf sinf r w1 hs1
  split_ifs
  · exact key w1 hs1 ha1
  · exact key _ f1 (f4.trans ha1)
  · exact ⟨_, rfl, f1, f4.trans ha1⟩

theorem angleAfter_eq_iterate (pi : α) (n : Nat) :
    angleAfter pi n = (advanceAngle pi)^[n] 0 := by
  induction n with
  | zero => rfl
  | succ n ih => rw [Function.iterate_succ_apply', ← ih]; rfl

/-- A run of ticks from a widget of the constructor's sizes completes, and the
stored angle is the angle update applied once per tick. -/
theorem runTicks_angle (pi : α) (cosf sinf : α → α) (rs : List (RunCalls α)) (w : Widget α)
    (hs : w.sized) :
    ∃ w' : Widget α, runTicks pi cosf sinf rs w = some w' ∧ w'.sized ∧
      w'.angle = (advanceAngle pi)^[rs.length] w.angle := by
  induction rs generalizing w with
  | nil => exact ⟨w, rfl, hs, rfl⟩
  | cons r rs ih =>
    obtain ⟨w1, h1, hs1, ha1⟩ := onFrame_total pi cosf sinf r w hs
    obtain ⟨w2, h2, hs2, ha2⟩ := ih w1 hs1
    refine ⟨w2, ?_, hs2, ?_⟩
    · simp only [runTicks, h1, h2]
    · rw [ha2, ha1, List.length_cons, Function.iterate_succ_apply]

theorem rotate_project_eq (cosf sinf : α → α) (p : Float4 α) (angle focal : α) :
    rotate_project cosf sinf p angle focal = fallbackPoint cosf sinf focal 3 angle p := rfl

/-- The two paths of a tick agree: when `runOpenCL` succeeds it leaves the widget
exactly as the CPU fallback block would. -/
theorem runOpenCL_eq_cpuFallback (cosf sinf : α → α) (r : RunCalls α) (w : Widget α)
    (hs : w.sized) (hok : (runOpenCL cosf sinf r w).1 = true) :
    cpuFallback cosf sinf w = some (runOpenCL cosf sinf r w).2 := by
  rw [cpuFallback_eq cosf sinf w hs, runOpenCL_success cosf sinf r w hs hok]
  rfl

/-- C1: for every point, angle and focal value the kernel `rotate_project` and the
body of the CPU fallback loop (with the camera offset 3.0 its block binds) return
the same pair, so the coordinates differ by 0 ≤ 1e-4; in the sentinel case
(`zcam ≤ 0.01`) both return (2, 2), otherwise both return the perspective
quotient. -/
theorem rotate_project_agrees_with_fallback (cosf sinf : α → α) (p : Float4 α)
    (angle focal : α) :
    rotate_project cosf sinf p angle focal = fallbackPoint cosf sinf focal 3 angle p ∧
      |(rotate_project cosf sinf p angle focal).1 -
          (fallbackPoint cosf sinf focal 3 angle p).1| ≤ 1 / 10000 ∧
      |(rotate_project cosf sinf p angle focal).2 -
          (fallbackPoint cosf sinf focal 3 angle p).2| ≤ 1 / 10000 ∧
      rotate_project cosf sinf p angle focal =
        (if -sinf angle * p.x + cosf angle * p.z + 3 ≤ 1 / 100 then (2, 2)
         else ((cosf angle * p.x + sinf angle * p.z) * focal /
                 (-sinf angle * p.x + cosf angle * p.z + 3),
               p.y * focal / (-sinf angle * p.x + cosf angle * p.z + 3))) ∧
      fallbackPoint cosf sinf focal 3 angle p =
        (if -sinf angle * p.x + cosf angle * p.z + 3 ≤ 1 / 100 then (2, 2)
         else ((cosf angle * p.x + sinf angle * p.z) * focal /
                 (-sinf angle * p.x + cosf angle * p.z + 3),
               p.y * focal / (-sinf angle * p.x + cosf angle * p.z + 3))) := by
  have heq := rotate_project_eq cosf sinf p angle focal
  refine ⟨heq, ?_, ?_, rfl, rfl⟩
  · rw [heq, sub_self, abs_zero]; norm_num
  · rw [heq, sub_self, abs_zero]; norm_num

/-- C2: the fallback transform is the reference definition of the specification for
every point, angle and focal value, with the sentinel (2, 2) exactly when
`zcam ≤ 0.01` and the unclamped quotient otherwise; the three scenarios of the
specification evaluate to (0, 0.4), (0.4, 0) and (2, 2), and a quotient outside
[-1.5, 1.5] is returned unchanged. -/
theorem fallbackPoint_eq_specTransform (x y z w angle focal : ℝ) :
    fallbackPoint Real.cos Real.sin focal 3 angle ⟨x, y, z, w⟩ =
        specTransform Real.cos Real.sin angle focal x y z ∧
      fallbackPoint Real.cos Real.sin focal 3 angle ⟨x, y, z, w⟩ =
        (if -Real.sin angle * x + Real.cos angle * z + 3 ≤ 1 / 100 then (2, 2)
         else ((Real.cos angle * x + Real.sin angle * z) * focal /
                 (-Real.sin angle * x + Real.cos angle * z + 3),
               y * focal / (-Real.sin angle * x + Real.cos angle * z + 3))) ∧
      fallbackPoint Real.cos Real.sin (12 / 10) 3 0 ⟨0, 1, 0, 1⟩ = (0, 4 / 10) ∧
      fallbackPoint Real.cos Real.sin (12 / 10) 3 (Real.pi / 2) ⟨0, 0, 1, 1⟩ = (4 / 10, 0) ∧
      fallbackPoint Real.cos Real.sin (12 / 10) 3 0 ⟨0, 0, -4, 1⟩ = (2, 2) ∧
      fallbackPoint Real.cos Real.sin (12 / 10) 3 0 ⟨10, 0, 0, 1⟩ = (4, 0) := by
  refine ⟨rfl, rfl, ?_, ?_, ?_, ?_⟩
  · simp only [fallbackPoint, Real.cos_zero, Real.sin_zero]
    norm_num
  · simp only [fallbackPoint, Real.cos_pi_div_two, Real.sin_pi_div_two]
    norm_num
  · simp only [fallbackPoint, Real.cos_zero, Real.sin_zero]
    norm_num
  · simp only [fallbackPoint, Real.cos_zero, Real.sin_zero]
    norm_num

/-- C6: in a tick where the accelerator is unavailable (`useCPUFallback` set) or
`runOpenCL` reports failure, `onFrame` completes and the output buffer then holds,
at every index `i < nPoints`, the fallback transform of `points[i]` at the advanced
angle with focal 1.2. -/
theorem onFrame_fallback_output (pi : α) (cosf sinf : α → α) (r : RunCalls α) (w : Widget α)
    (hs : w.sized)
    (hfail : w.useCPUFallback = true ∨
      (runOpenCL cosf sinf r { w with angle := advanceAngle pi w.angle }).1 = false) :
    ∃ w' : Widget α,
      onFrame pi cosf sinf r w = some w' ∧
      w'.angle = advanceAngle pi w.angle ∧
      w'.points = w.points ∧ w'.nPoints = w.nPoints ∧
      w'.hostXY.length = w.nPoints ∧
      ∀ i : Nat, i < w.nPoints →
        ∃ p : Float4 α, w.points[i]? = some p ∧
          w'.hostXY[i]? =
            some (fallbackPoint cosf sinf (12 / 10) 3 (advanceAngle pi w.angle) p) := by
  have hs1 : ({ w with angle := advanceAngle pi w.angle } : Widget α).sized := hs
  have key : ∀ v : Widget α, v.sized → v.points = w.points → v.nPoints = w.nPoints →
      v.angle = advanceAngle pi w.angle →
      ∃ w' : Widget α, cpuFallback cosf sinf v = some w' ∧
        w'.angle = advanceAngle pi w.angle ∧
        w'.points = w.points ∧ w'.nPoints = w.nPoints ∧
        w'.hostXY.length = w.nPoints ∧
        ∀ i : Nat, i < w.nPoints →
          ∃ p : Float4 α, w.points[i]? = some p ∧
            w'.hostXY[i]? =
              some (fallbackPoint cosf sinf (12 / 10) 3 (advanceAngle pi w.angle) p) := by
    intro v hv hp hn ha
    refine ⟨_, cpuFallback_eq cosf sinf v hv, ha, hp, hn, ?_, ?_⟩
    · simp only [List.length_map, hp]
      exact hs.1
    · intro i hi
      have hlt : i < w.points.length := by rw [hs.1]; exact hi
      refine ⟨w.points[i], List.getElem?_eq_getElem hlt, ?_⟩
      simp only [hp, ha, List.getElem?_map, List.getElem?_eq_getElem hlt, Option.map_some']
  unfold onFrame
  dsimp only
  generalize hw1 : ({ w with angle := advanceAngle pi w.angle } : Widget α) = w1 at hfail hs1
  have hp1 : w1.points = w.points := by rw [← hw1]
  have hn1 : w1.nPoints = w.nPoints := by rw [← hw1]
  have ha1 : w1.angle = advanceAngle pi w.angle := by rw [← hw1]
  by_cases hflag : w.useCPUFallback = true
  · rw [if_pos hflag]
    exact key w1 hs1 hp1 hn1 ha1
  · rw [if_neg hflag]
    have hrun : (runOpenCL cosf sinf r w1).1 = false := hfail.resolve_left hflag
    obtain ⟨f1, f2, f3, f4⟩ := runOpenCL_frame cosf sinf r w1 hs1
    rw [hrun]
    simp only [Bool.not_false, if_true]
    exact key _ f1 (f2.trans hp1) (f3.trans hn1) (f4.trans ha1)

/-- Witness for C6: a one-point widget whose accelerator is unavailable. -/
theorem onFrame_fallback_output_witness :
    ∃ w' : Widget ℝ,
      onFrame Real.pi Real.cos Real.sin ⟨true, true, true, fun _ => (0, 0)⟩
        ⟨Handles.null, true, [⟨0, 1, 0, 1⟩], [(0, 0)], 1, 1, 1, 0⟩ = some w' ∧
      w'.angle = advanceAngle Real.pi 0 ∧
      w'.points = [⟨0, 1, 0, 1⟩] ∧ w'.nPoints = 1 ∧
      w'.hostXY.length = 1 ∧
      ∀ i : Nat, i < 1 →
        ∃ p : Float4 ℝ, ([⟨0, 1, 0, 1⟩] : List (Float4 ℝ))[i]? = some p ∧
          w'.hostXY[i]? =
            some (fallbackPoint Real.cos Real.sin (12 / 10) 3 (advanceAngle Real.pi 0) p) :=
  onFrame_fallback_output Real.pi Real.cos Real.sin ⟨true, true, true, fun _ => (0, 0)⟩
    ⟨Handles.null, true, [⟨0, 1, 0, 1⟩], [(0, 0)], 1, 1, 1, 0⟩ ⟨rfl, rfl⟩ (Or.inl rfl)

/-! Accelerator initialisation. -/

/-- C7, evaluated on the code: when program creation, the build, kernel lookup or a
buffer allocation fails, `initOpenCL` returns `false` with the context and the queue
(and whatever else was acquired, the released program apart) still held; only the
queue-creation failure releases everything acquired so far. -/
theorem initOpenCL_failure_keeps_handles :
    initOpenCL { InitCalls.allSucceed with createProgram := false } Handles.null =
        (false, ⟨true, true, true, true, false, false, false, false⟩) ∧
      initOpenCL { InitCalls.allSucceed with buildProgram := false } Handles.null =
        (false, ⟨true, true, true, true, false, false, false, false⟩) ∧
      initOpenCL { InitCalls.allSucceed with createKernel := false } Handles.null =
        (false, ⟨true, true, true, true, true, false, false, false⟩) ∧
      initOpenCL { InitCalls.allSucceed with createInBuffer := false } Handles.null =
        (false, ⟨true, true, true, true, true, true, false, false⟩) ∧
      initOpenCL { InitCalls.allSucceed with createOutBuffer := false } Handles.null =
        (false, ⟨true, true, true, true, true, true, true, false⟩) ∧
      initOpenCL { InitCalls.allSucceed with createQueue := false } Handles.null =
        (false, ⟨true, true, false, false, false, false, false, false⟩) := by
  decide

/-! The rotation angle. -/

theorem advanceAngle_range (a : ℝ) (h0 : 0 ≤ a) (h1 : a ≤ 2 * Real.pi) :
    0 < advanceAngle Real.pi a ∧ advanceAngle Real.pi a ≤ 2 * Real.pi := by
  have hpi := Real.pi_gt_three
  unfold advanceAngle
  dsimp only
  split_ifs with h
  · constructor <;> linarith
  · constructor <;> linarith

/-- C8: from the initial angle 0, after any number of angle updates of `onFrame` the
stored angle is at least 0 and at most 2π; so it is for the angle the widget
stores after any run of ticks from its construction. -/
theorem angleAfter_within_turn (n : Nat) (c : InitCalls) (rs : List (RunCalls ℝ)) :
    (0 ≤ angleAfter Real.pi n ∧ angleAfter Real.pi n ≤ 2 * Real.pi) ∧
      ∃ w0 w1 : Widget ℝ,
        construct Real.pi Real.cos Real.sin c = Except.ok w0 ∧
        runTicks Real.pi Real.cos Real.sin rs w0 = some w1 ∧
        w1.angle = angleAfter Real.pi rs.length ∧
        0 ≤ w1.angle ∧ w1.angle ≤ 2 * Real.pi := by
  have hb : ∀ k : Nat, 0 ≤ angleAfter Real.pi k ∧ angleAfter Real.pi k ≤ 2 * Real.pi := by
    intro k
    induction k with
    | zero =>
      have hpi := Real.pi_gt_three
      simp only [angleAfter]
      constructor <;> linarith
    | succ k ih =>
      have h := advanceAngle_range (angleAfter Real.pi k) ih.1 ih.2
      simp only [angleAfter]
      exact ⟨le_of_lt h.1, h.2⟩
  refine ⟨hb n, ?_⟩
  obtain ⟨w0, hc, hs0, ha0, _⟩ := construct_sized Real.pi Real.cos Real.sin c
  obtain ⟨w1, hr, _, ha1⟩ := runTicks_angle Real.pi Real.cos Real.sin rs w0 hs0
  have hang : w1.angle = angleAfter Real.pi rs.length := by
    rw [ha1, ha0, angleAfter_eq_iterate]
  exact ⟨w0, w1, hc, hr, hang, by rw [hang]; exact (hb rs.length).1,
    by rw [hang]; exact (hb rs.length).2⟩

/-! The angle update in IEEE 754 arithmetic. -/

theorem roundHalfEven_near (q : ℚ) : |(roundHalfEven q : ℚ) - q| ≤ 1 / 2 := by
  have h1 := Int.floor_le q
  have h2 := Int.lt_floor_add_one q
  unfold roundHalfEven
  dsimp only
  split_ifs with a b c
  · rw [abs_le]; constructor <;> linarith
  · rw [abs_le]; push_cast; constructor <;> linarith
  · have h3 : q - (⌊q⌋ : ℚ) = 1 / 2 := le_antisymm (not_lt.mp b) (not_lt.mp a)
    rw [abs_le]; constructor <;> linarith
  · have h3 : q - (⌊q⌋ : ℚ) = 1 / 2 := le_antisymm (not_lt.mp b) (not_lt.mp a)
    rw [abs_le]; push_cast; constructor <;> linarith

theorem roundHalfEven_nonneg (q : ℚ) (h : 0 ≤ q) : 0 ≤ roundHalfEven q := by
  have hf : 0 ≤ ⌊q⌋ := Int.floor_nonneg.mpr h
  unfold roundHalfEven
  dsimp only
  split_ifs <;> omega

theorem roundHalfEven_of_lt (q : ℚ) (n : Int) (h1 : (n : ℚ) ≤ q) (h2 : q < (n : ℚ) + 1 / 2) :
    roundHalfEven q = n := by
  have hf : ⌊q⌋ = n := Int.floor_eq_iff.mpr ⟨h1, by linarith⟩
  unfold roundHalfEven
  dsimp only
  rw [hf, if_pos (by linarith)]

theorem roundBinary_nonneg (p : Nat) (emin : Int) (x : ℚ) (h : 0 ≤ x) :
    0 ≤ roundBinary p emin x := by
  unfold roundBinary
  split_ifs with h0
  · exact le_refl 0
  · dsimp only
    have hu : (0 : ℚ) < 2 ^ (max (Int.log 2 |x|) emin - (p : Int) + 1) :=
      zpow_pos (by norm_num) _
    have hn := roundHalfEven_nonneg (x / 2 ^ (max (Int.log 2 |x|) emin - (p : Int) + 1))
      (div_nonneg h hu.le)
    exact mul_nonneg (by exact_mod_cast hn) hu.le

theorem roundBinary_near (p : Nat) (emin k : Int) (x : ℚ) (hx : |x| < 2 ^ k) (hk : emin < k) :
    |roundBinary p emin x - x| ≤ 2 ^ (k - 1 - (p : Int)) := by
  unfold roundBinary
  split_ifs with h0
  · subst h0
    simp only [sub_self, abs_zero]
    exact (zpow_pos (by norm_num) _).le
  · dsimp only
    have hpos : 0 < |x| := abs_pos.mpr h0
    have hlog : Int.log 2 |x| < k :=
      (Int.lt_zpow_iff_log_lt (by norm_num) hpos).mp (by exact_mod_cast hx)
    have hek : max (Int.log 2 |x|) emin ≤ k - 1 := max_le (by omega) (by omega)
    generalize max (Int.log 2 |x|) emin = e at hek
    have hupos : (0 : ℚ) < 2 ^ (e - (p : Int) + 1) := zpow_pos (by norm_num) _
    have hn := roundHalfEven_near (x / 2 ^ (e - (p : Int) + 1))
    have hrw : (roundHalfEven (x / 2 ^ (e - (p : Int) + 1)) : ℚ) * 2 ^ (e - (p : Int) + 1) - x =
        ((roundHalfEven (x / 2 ^ (e - (p : Int) + 1)) : ℚ) - x / 2 ^ (e - (p : Int) + 1)) *
          2 ^ (e - (p : Int) + 1) := by
      field_simp
    rw [hrw, abs_mul, abs_of_pos hupos]
    calc |(roundHalfEven (x / 2 ^ (e - (p : Int) + 1)) : ℚ) - x / 2 ^ (e - (p : Int) + 1)| *
          2 ^ (e - (p : Int) + 1)
        ≤ 1 / 2 * 2 ^ (e - (p : Int) + 1) := mul_le_mul_of_nonneg_right hn hupos.le
      _ = 2 ^ (e - (p : Int)) := by rw [zpow_add_one₀ (by norm_num)]; ring
      _ ≤ 2 ^ (k - 1 - (p : Int)) := zpow_le_zpow_right₀ (by norm_num) (by omega)

theorem roundBinary_grid (p : Nat) (emin k : Int) (x : ℚ) (h1 : 2 ^ k ≤ |x|)
    (h2 : |x| < 2 ^ (k + 1)) (hk : emin ≤ k) :
    roundBinary p emin x =
      (roundHalfEven (x / 2 ^ (k - (p : Int) + 1)) : ℚ) * 2 ^ (k - (p : Int) + 1) := by
  have hpos : 0 < |x| := lt_of_lt_of_le (zpow_pos (by norm_num) _) h1
  have h0 : x ≠ 0 := abs_pos.mp hpos
  have hlt : Int.log 2 |x| < k + 1 :=
    (Int.lt_zpow_iff_log_lt (by norm_num) hpos).mp (by exact_mod_cast h2)
  have hle : k ≤ Int.log 2 |x| :=
    (Int.zpow_le_iff_le_log (by norm_num) hpos).mp (by exact_mod_cast h1)
  have hlog : Int.log 2 |x| = k := by omega
  unfold roundBinary
  rw [if_neg h0, hlog, max_eq_left hk]

theorem M_PI_eq : M_PI = 7074237752028440 / 2 ^ 51 := by
  unfold M_PI roundF64
  rw [roundBinary_grid 53 (-1022) 1 _ (by rw [abs_of_pos (by norm_num)]; norm_num)
    (by rw [abs_of_pos (by norm_num)]; norm_num) (by norm_num)]
  rw [roundHalfEven_of_lt _ 7074237752028440 (by norm_num) (by norm_num)]
  norm_num

theorem two_M_PI_eq : roundF64 (2 * M_PI) = 7074237752028440 / 2 ^ 50 := by
  rw [M_PI_eq]
  unfold roundF64
  rw [roundBinary_grid 53 (-1022) 2 _ (by rw [abs_of_pos (by norm_num)]; norm_num)
    (by rw [abs_of_pos (by norm_num)]; norm_num) (by norm_num)]
  rw [roundHalfEven_of_lt _ 7074237752028440 (by norm_num) (by norm_num)]
  norm_num

theorem float_increment_bounds :
    0 ≤ roundF32 (2 / 100) ∧ roundF32 (2 / 100) ≤ 3 / 100 := by
  have hnn := roundBinary_nonneg 24 (-126) (2 / 100) (by norm_num)
  have hnear := roundBinary_near 24 (-126) (-5) (2 / 100)
    (by rw [abs_of_pos (by norm_num)]; norm_num) (by norm_num)
  rw [abs_le] at hnear
  refine ⟨hnn, ?_⟩
  have h2 := hnear.2
  norm_num at h2
  unfold roundF32
  linarith

theorem float_sum_facts (a : ℚ) (h0 : 0 ≤ a) (hA : a < 63 / 10) :
    0 ≤ roundF32 (a + roundF32 (2 / 100)) ∧
      roundF32 (a + roundF32 (2 / 100)) < 634 / 100 ∧
      roundF32 (a + roundF32 (2 / 100)) ≠ 7074237752028440 / 2 ^ 50 := by
  obtain ⟨hc0, hc1⟩ := float_increment_bounds
  generalize roundF32 (2 / 100) = c at hc0 hc1
  have hx0 : 0 ≤ a + c := by linarith
  have hx8 : |a + c| < 2 ^ (3 : Int) := by rw [abs_of_nonneg hx0]; norm_num; linarith
  have hnn := roundBinary_nonneg 24 (-126) (a + c) hx0
  have hnear := roundBinary_near 24 (-126) 3 (a + c) hx8 (by norm_num)
  rw [abs_le] at hnear
  obtain ⟨hn1, hn2⟩ := hnear
  norm_num at hn1 hn2
  unfold roundF32
  refine ⟨hnn, by linarith, ?_⟩
  intro heq
  have hx4 : (2 : ℚ) ^ (2 : Int) ≤ |a + c| := by
    rw [abs_of_nonneg hx0]; norm_num; rw [heq] at hn1 hn2; norm_num at hn1 hn2; linarith
  have hgrid := roundBinary_grid 24 (-126) 2 (a + c) hx4 (by norm_num; exact_mod_cast hx8)
    (by norm_num)
  rw [hgrid] at heq
  generalize roundHalfEven ((a + c) / 2 ^ ((2 : Int) - ((24 : Nat) : Int) + 1)) = n at heq
  have hq : (n : ℚ) * 536870912 = 7074237752028440 := by
    norm_num at heq
    linarith
  have hz : n * 536870912 = 7074237752028440 := by exact_mod_cast hq
  omega

/-- C9: in the arithmetic of the code (`float` angle, `double` comparison with
`2.0f * M_PI`), for every stored angle `a` with `0 ≤ a < 2π` the angle stored after
one update is at least 0 and strictly below `2.0f * M_PI`, hence strictly below 2π:
no `float` equals the `double` value of `2.0f * M_PI`, so the strict test of the
wrap never leaves the angle at a full turn. -/
theorem advanceAngleFloat_half_open (a : ℚ) (h0 : 0 ≤ a) (h1 : (a : ℝ) < 2 * Real.pi) :
    0 ≤ advanceAngleFloat a ∧ advanceAngleFloat a < roundF64 (2 * M_PI) ∧
      ((advanceAngleFloat a : ℚ) : ℝ) < 2 * Real.pi := by
  have hpi := Real.pi_lt_d2
  have hpi20 := Real.pi_gt_d20
  have hT : (7074237752028440 / 2 ^ 50 : ℝ) < 2 * Real.pi := by
    norm_num at hpi20 ⊢
    linarith
  have hA : a < 63 / 10 := by
    have : (a : ℝ) < ((63 / 10 : ℚ) : ℝ) := by push_cast; linarith
    exact_mod_cast this
  obtain ⟨f0, f1, f2⟩ := float_sum_facts a h0 hA
  unfold advanceAngleFloat
  dsimp only
  rw [two_M_PI_eq]
  generalize roundF32 (a + roundF32 (2 / 100)) = a1 at f0 f1 f2
  split_ifs with hw
  · have hd0 : 0 ≤ a1 - 7074237752028440 / 2 ^ 50 := by linarith
    have hd6 : a1 - 7074237752028440 / 2 ^ 50 < 6 / 100 := by norm_num; linarith
    generalize a1 - 7074237752028440 / 2 ^ 50 = D at hd0 hd6
    have hd1 : |D| < 2 ^ (-4 : Int) := by
      rw [abs_of_nonneg hd0]; norm_num; linarith
    have g0 := roundBinary_nonneg 53 (-1022) D hd0
    have g1 := roundBinary_near 53 (-1022) (-4) D hd1 (by norm_num)
    rw [abs_le] at g1
    obtain ⟨_, g2⟩ := g1
    norm_num at g2
    unfold roundF64
    generalize roundBinary 53 (-1022) D = d at g0 g2
    have he1 : |d| < 2 ^ (-4 : Int) := by
      rw [abs_of_nonneg g0]; norm_num; linarith
    have k0 := roundBinary_nonneg 24 (-126) d g0
    have k1 := roundBinary_near 24 (-126) (-4) d he1 (by norm_num)
    rw [abs_le] at k1
    obtain ⟨_, k2⟩ := k1
    norm_num at k2
    unfold roundF32
    have hlt : roundBinary 24 (-126) d < 1 := by linarith
    refine ⟨k0, ?_, ?_⟩
    · norm_num
      linarith
    · have : ((roundBinary 24 (-126) d : ℚ) : ℝ) < ((1 : ℚ) : ℝ) := by exact_mod_cast hlt
      push_cast at this
      linarith [Real.pi_gt_three]
  · have hlt : a1 < 7074237752028440 / 2 ^ 50 := lt_of_le_of_ne (not_lt.mp hw) f2
    refine ⟨f0, hlt, ?_⟩
    have : ((a1 : ℚ) : ℝ) < ((7074237752028440 / 2 ^ 50 : ℚ) : ℝ) := by exact_mod_cast hlt
    push_cast at this
    linarith

/-- Witness for C9: the largest `float` below 2π, 13176794 / 2 ^ 21. -/
theorem advanceAngleFloat_half_open_witness :
    0 ≤ advanceAngleFloat (13176794 / 2 ^ 21) ∧
      advanceAngleFloat (13176794 / 2 ^ 21) < roundF64 (2 * M_PI) ∧
      ((advanceAngleFloat (13176794 / 2 ^ 21) : ℚ) : ℝ) < 2 * Real.pi :=
  advanceAngleFloat_half_open (13176794 / 2 ^ 21) (by norm_num)
    (by
      have hpi20 := Real.pi_gt_d20
      push_cast
      norm_num at hpi20 ⊢
      linarith)

/-! The unit sphere under the transform. -/

theorem rotated_bounds (c s x y z : ℝ) (hcs : s ^ 2 + c ^ 2 = 1)
    (h : x ^ 2 + y ^ 2 + z ^ 2 = 1) :
    (-1 ≤ c * x + s * z ∧ c * x + s * z ≤ 1) ∧ (-1 ≤ y ∧ y ≤ 1) ∧
      (-1 ≤ -s * x + c * z ∧ -s * x + c * z ≤ 1) := by
  have hsum : (c * x + s * z) ^ 2 + (-s * x + c * z) ^ 2 = x ^ 2 + z ^ 2 := by
    have : (c * x + s * z) ^ 2 + (-s * x + c * z) ^ 2 = (s ^ 2 + c ^ 2) * (x ^ 2 + z ^ 2) := by
      ring
    rw [this, hcs, one_mul]
  have hx : (c * x + s * z) ^ 2 ≤ 1 := by nlinarith [sq_nonneg (-s * x + c * z), sq_nonneg y]
  have hz : (-s * x + c * z) ^ 2 ≤ 1 := by nlinarith [sq_nonneg (c * x + s * z), sq_nonneg y]
  have hy : y ^ 2 ≤ 1 := by nlinarith [sq_nonneg x, sq_nonneg z]
  refine ⟨⟨?_, ?_⟩, ⟨?_, ?_⟩, ⟨?_, ?_⟩⟩ <;> nlinarith

theorem fallbackPoint_unit (p : Float4 ℝ) (angle : ℝ)
    (h : p.x ^ 2 + p.y ^ 2 + p.z ^ 2 = 1) :
    (2 ≤ -Real.sin angle * p.x + Real.cos angle * p.z + 3 ∧
        -Real.sin angle * p.x + Real.cos angle * p.z + 3 ≤ 4) ∧
      fallbackPoint Real.cos Real.sin (12 / 10) 3 angle p =
        ((Real.cos angle * p.x + Real.sin angle * p.z) * (12 / 10) /
            (-Real.sin angle * p.x + Real.cos angle * p.z + 3),
          p.y * (12 / 10) / (-Real.sin angle * p.x + Real.cos angle * p.z + 3)) ∧
      |(fallbackPoint Real.cos Real.sin (12 / 10) 3 angle p).1| ≤ 6 / 10 ∧
      |(fallbackPoint Real.cos Real.sin (12 / 10) 3 angle p).2| ≤ 6 / 10 := by
  obtain ⟨⟨hx1, hx2⟩, ⟨hy1, hy2⟩, ⟨hz1, hz2⟩⟩ :=
    rotated_bounds (Real.cos angle) (Real.sin angle) p.x p.y p.z
      (Real.sin_sq_add_cos_sq angle) h
  have hpos : 0 < -Real.sin angle * p.x + Real.cos angle * p.z + 3 := by linarith
  have hval : fallbackPoint Real.cos Real.sin (12 / 10) 3 angle p =
      ((Real.cos angle * p.x + Real.sin angle * p.z) * (12 / 10) /
          (-Real.sin angle * p.x + Real.cos angle * p.z + 3),
        p.y * (12 / 10) / (-Real.sin angle * p.x + Real.cos angle * p.z + 3)) := by
    unfold fallbackPoint
    dsimp only
    rw [if_neg (by linarith)]
  refine ⟨⟨by linarith, by linarith⟩, hval, ?_, ?_⟩
  · rw [hval, abs_le]
    constructor
    · rw [le_div_iff₀ hpos]; linarith
    · rw [div_le_iff₀ hpos]; linarith
  · rw [hval, abs_le]
    constructor
    · rw [le_div_iff₀ hpos]; linarith
    · rw [div_le_iff₀ hpos]; linarith

theorem paintSkips_of_abs_le (xy : ℝ × ℝ) (h1 : |xy.1| ≤ 6 / 10) (h2 : |xy.2| ≤ 6 / 10) :
    paintSkips xy = false := by
  rw [abs_le] at h1 h2
  have a1 : ¬ xy.1 > 15 / 10 := by intro h; linarith [h1.2]
  have a2 : ¬ xy.1 < -(15 / 10) := by intro h; linarith [h1.1]
  have a3 : ¬ xy.2 > 15 / 10 := by intro h; linarith [h2.2]
  have a4 : ¬ xy.2 < -(15 / 10) := by intro h; linarith [h2.1]
  simp [paintSkips, a1, a2, a3, a4]

/-- C10: for a point on the unit sphere and any angle, the fallback transform has
`2 ≤ zcam ≤ 4`, takes the projection branch (never the sentinel (2, 2)), and with
focal 1.2 both output coordinates are at most 0.6 in absolute value, so `paintEvent`
does not skip it; hence no point of a generated cloud is ever skipped. -/
theorem fallback_unit_sphere_on_screen (p : Float4 ℝ) (angle : ℝ)
    (h : p.x ^ 2 + p.y ^ 2 + p.z ^ 2 = 1) :
    (2 ≤ -Real.sin angle * p.x + Real.cos angle * p.z + 3 ∧
        -Real.sin angle * p.x + Real.cos angle * p.z + 3 ≤ 4) ∧
      fallbackPoint Real.cos Real.sin (12 / 10) 3 angle p =
        ((Real.cos angle * p.x + Real.sin angle * p.z) * (12 / 10) /
            (-Real.sin angle * p.x + Real.cos angle * p.z + 3),
          p.y * (12 / 10) / (-Real.sin angle * p.x + Real.cos angle * p.z + 3)) ∧
      fallbackPoint Real.cos Real.sin (12 / 10) 3 angle p ≠ (2, 2) ∧
      |(fallbackPoint Real.cos Real.sin (12 / 10) 3 angle p).1| ≤ 6 / 10 ∧
      |(fallbackPoint Real.cos Real.sin (12 / 10) 3 angle p).2| ≤ 6 / 10 ∧
      paintSkips (fallbackPoint Real.cos Real.sin (12 / 10) 3 angle p) = false ∧
      ∀ (latSteps lonSteps : Int) (pts : List (Float4 ℝ)),
        makeSpherePoints Real.pi Real.cos Real.sin latSteps lonSteps = Except.ok pts →
        ∀ q ∈ pts, ∀ t : ℝ,
          paintSkips (fallbackPoint Real.cos Real.sin (12 / 10) 3 t q) = false := by
  obtain ⟨hz, hval, hb1, hb2⟩ := fallbackPoint_unit p angle h
  refine ⟨hz, hval, ?_, hb1, hb2, paintSkips_of_abs_le _ hb1 hb2, ?_⟩
  · intro he
    rw [he] at hb1
    norm_num at hb1
  · intro latSteps lonSteps pts hgen q hq t
    have hq' : ∃ i j : Nat, q = spherePoint Real.pi Real.cos Real.sin latSteps lonSteps i j := by
      by_cases hneg : latSteps * lonSteps < 0
      · simp [makeSpherePoints, reserveRejects, hneg] at hgen
      · rw [makeSpherePoints_ok Real.pi Real.cos Real.sin latSteps lonSteps
          (not_lt.mp hneg)] at hgen
        injection hgen with hgen
        rw [← hgen] at hq
        exact cloudRows_mem _ _ _ _ _ _ q hq
    obtain ⟨i, j, rfl⟩ := hq'
    obtain ⟨_, _, c1, c2⟩ := fallbackPoint_unit _ t (spherePoint_unit latSteps lonSteps i j)
    exact paintSkips_of_abs_le _ c1 c2

/-- Witness for C10: the north pole at angle 0. -/
theorem fallback_unit_sphere_on_screen_witness :
    fallbackPoint Real.cos Real.sin (12 / 10) 3 0 ⟨0, 1, 0, 1⟩ ≠ (2, 2) ∧
      paintSkips (fallbackPoint Real.cos Real.sin (12 / 10) 3 0 ⟨0, 1, 0, 1⟩) = false :=
  have hw := fallback_unit_sphere_on_screen ⟨0, 1, 0, 1⟩ 0 (by norm_num)
  ⟨hw.2.2.1, hw.2.2.2.2.2.1⟩

end Sphera
